import Mathlib

/-!
Verification of the analysis/storage core of the `sakabot-clawdbot-strava-bridge`
repository: the 1 km segmenter (`computeSplits1km`), the pacing classifier
(`pacingInsight`), the historical matcher (`pickComparableLastWeek`), the delta
engine (`compareCurrentVsPrev`), the idempotency ledger (`pruneProcessed` /
`markProcessed`) and the JSONL record store (`appendStore` / `readStore`).

Modelling conventions (shallow embedding of the JavaScript source):
* JavaScript numbers are modelled by `ℚ` (exact arithmetic; stream samples,
  distances and times in the source are ordinary finite doubles).  A JavaScript
  value that can be `null` / `undefined` / `NaN` is modelled by `Option ℚ`,
  `none` standing for the non-numeric cases (`safeNum` maps those to `null`).
* `Math.round x` is `⌊x + 1/2⌋` (round half towards `+∞`), `Math.floor` is
  `⌊·⌋`, and the `%` operator truncates towards zero.
* Dates are their millisecond epoch values (`ℤ`); an unparseable date
  (`getTime()` is `NaN`) is `none`.
-/

set_option maxRecDepth 8000

/-- JavaScript truncation towards zero, as used by the `%` operator. -/
def jsTrunc (q : ℚ) : ℤ := if 0 ≤ q then ⌊q⌋ else ⌈q⌉

/-- JavaScript remainder `a % b` (sign follows the dividend). -/
def jsMod (a b : ℚ) : ℚ := a - b * (jsTrunc (a / b) : ℚ)

/-- JavaScript `Math.round`: round half towards positive infinity. -/
def jsRound (q : ℚ) : ℤ := ⌊q + 1 / 2⌋

/-- `msToKmh` from `src/utils/formatters.js`: metres/second to km/h.
The `Number.isFinite` guard of the source is vacuous over `ℚ`. -/
def msToKmh (ms : ℚ) : ℚ := ms * (36 / 10)

/-- `String(n).padStart(2, "0")` for an integer `n`. -/
def pad2 (n : ℤ) : String :=
  let s := toString n
  if s.length < 2 then "0" ++ s else s

/-- `secToPace` from `src/utils/formatters.js`.  The argument is `none` when the
source is handed `NaN` (the `secPerKm ?? NaN` call site), which fails the
`Number.isFinite` test. -/
def secToPace (q : Option ℚ) : String :=
  match q with
  | none => "n/d"
  | some q =>
    if q ≤ 0 then "n/d"
    else toString (⌊q / 60⌋ : ℤ) ++ ":" ++ pad2 (jsRound (jsMod q 60)) ++ "/km"

/-- `fmtKmh` from `src/utils/formatters.js`: `toFixed(1)` followed by a unit
suffix.  `toFixed` rounds half away from zero towards the larger candidate,
which for the positive speeds produced by the segmenter is `jsRound` on the
value scaled by ten. -/
def fmtKmh (kmh : ℚ) : String :=
  let t : ℤ := jsRound (kmh * 10)
  toString (t / 10) ++ "." ++ toString (t % 10) ++ " km/h"

/-- The stream bundle consumed by `computeSplits1km`: the `streams?.X?.data`
arrays.  `none` models an absent stream.  Heart-rate and power samples may be
non-numeric (sensor dropouts), hence `Option ℚ` entries; distance and time
samples are numeric. -/
structure StreamSet where
  distance : Option (List ℚ)
  time : Option (List ℚ)
  heartrate : Option (List (Option ℚ))
  watts : Option (List (Option ℚ))

/-- One split object pushed by `computeSplits1km`. -/
structure Split where
  km : Nat
  mode : String
  meters : ℚ
  seconds : ℚ
  secPerKm : Option ℚ
  speedKmh : Option ℚ
  label : String
  hrAvg : Option ℤ
  hrMax : Option ℚ
  powerAvg : Option ℤ
deriving DecidableEq

/-- `Math.round` of the mean of a sample segment. -/
def segAvgRound (seg : List ℚ) : ℤ := jsRound (seg.sum / (seg.length : ℚ))

/-- The split object built when sample `i` reaches the current threshold with
segment start `startIdx` and `count` splits already emitted; transcribes the
body of the `if (dist[i] >= nextKm)` block of `computeSplits1km`. -/
def mkSplit (dist time : List ℚ) (hr watts : Option (List (Option ℚ)))
    (mode : String) (startIdx i count : Nat) : Split :=
  let meters := dist.getD i 0 - dist.getD startIdx 0
  let seconds := time.getD i 0 - time.getD startIdx 0
  let speedMs : Option ℚ := if 0 < meters ∧ 0 < seconds then some (meters / seconds) else none
  let speedKmh : Option ℚ := speedMs.map msToKmh
  let secPerKm : Option ℚ :=
    if 0 < meters ∧ 0 < seconds then some (seconds / (meters / 1000)) else none
  let hrSeg : List ℚ :=
    match hr with
    | some h =>
      if h.length = dist.length then ((h.drop startIdx).take (i + 1 - startIdx)).filterMap id
      else []
    | none => []
  let wSeg : List ℚ :=
    match watts with
    | some w =>
      if w.length = dist.length then ((w.drop startIdx).take (i + 1 - startIdx)).filterMap id
      else []
    | none => []
  let label :=
    if mode = "pace" then secToPace secPerKm
    else match speedKmh with
      | some v => fmtKmh v
      | none => "n/d"
  ⟨count + 1, mode, meters, seconds, secPerKm, speedKmh, label,
    if hrSeg.isEmpty then none else some (segAvgRound hrSeg),
    if hrSeg.isEmpty then none else hrSeg.max?,
    if wSeg.isEmpty then none else some (segAvgRound wSeg)⟩

/-- The scanning loop of `computeSplits1km`: `k` is the number of samples still
to visit, `i` the current index, `nextKm` the next threshold, `startIdx` the
index at which the open segment started and `count` the number of splits
already emitted (`splits.length` in the source). -/
def splitsGo (dist time : List ℚ) (hr watts : Option (List (Option ℚ))) (mode : String) :
    Nat → Nat → ℚ → Nat → Nat → List Split
  | 0, _, _, _, _ => []
  | k + 1, i, nextKm, startIdx, count =>
    if nextKm ≤ dist.getD i 0 then
      mkSplit dist time hr watts mode startIdx i count ::
        splitsGo dist time hr watts mode k (i + 1) (nextKm + 1000) i (count + 1)
    else
      splitsGo dist time hr watts mode k (i + 1) nextKm startIdx count

/-- `computeSplits1km` from `src/utils/stream-analysis.js` (identical copy in
the monolithic `index.js`): emit a split every time the cumulative distance
stream reaches the next 1000 m threshold. -/
def computeSplits1km (streams : StreamSet) (mode : String) : List Split :=
  match streams.distance, streams.time with
  | some dist, some time =>
    if dist.length = time.length then
      splitsGo dist time streams.heartrate streams.watts mode dist.length 0 1000 0 0
    else []
  | _, _ => []

/-- `pacingInsight` from `src/utils/stream-analysis.js`: first-half versus
second-half mean pace over the splits that carry a valid pace value. -/
def pacingInsight (splits : List Split) : Option String :=
  if splits.length < 4 then none
  else
    let valid := splits.filter fun s => s.secPerKm.isSome
    if valid.length < 4 then none
    else
      let avg : List Split → ℚ := fun arr =>
        (arr.foldl (fun a b => a + b.secPerKm.getD 0) 0) / (arr.length : ℚ)
      let first := avg (valid.take (valid.length / 2))
      let second := avg (valid.drop (valid.length / 2))
      let diff := second - first
      if |diff| < 5 then some "Pacing estável"
      else if diff < 0 then some "Negative split ✅"
      else some "Fade ⚠️ (ritmo caiu)"

/-- Abstract pacing verdicts, used by the specification-side classifier. -/
inductive PacingLabel
  | stable
  | negativeSplit
  | fade
deriving DecidableEq

/-- The display string the source emits for each verdict. -/
def labelString : PacingLabel → String
  | PacingLabel.stable => "Pacing estável"
  | PacingLabel.negativeSplit => "Negative split ✅"
  | PacingLabel.fade => "Fade ⚠️ (ritmo caiu)"

/-- Specification-side pacing classifier, transcribed from the wording of the
spec (§4.3): filter to splits with a defined pace value, require at least four
of them, split the filtered list at its floor midpoint, compute the mean pace
of each half, take the difference (second − first) and classify: absolute
difference under 5 ⇒ stable; negative ⇒ negative split; positive ⇒ fade. -/
def pacingInsightSpec (splits : List Split) : Option PacingLabel :=
  let valid := splits.filter fun s => s.secPerKm.isSome
  if valid.length < 4 then none
  else
    let mid := valid.length / 2
    let mean : List Split → ℚ := fun l =>
      ((l.map fun s => s.secPerKm.getD 0).sum) / (l.length : ℚ)
    let diff := mean (valid.drop mid) - mean (valid.take mid)
    if |diff| < 5 then some PacingLabel.stable
    else if diff < 0 then some PacingLabel.negativeSplit
    else some PacingLabel.fade

/-- The mutable ledger of `src/storage/store.js`: the polling cursor plus the
`processed` object, modelled as an association list in key-insertion order
(JavaScript object keys are unique).  A mark value is `Option ℤ` because the
pruning comparator guards with `?? 0`. -/
structure LedgerState where
  lastCheckedAt : ℤ
  processed : List (String × Option ℤ)

/-- `pruneProcessed` from `src/storage/store.js`: when the processed map has
more than `maxItems` entries, sort the entries ascending by mark timestamp
(`(a[1] ?? 0) - (b[1] ?? 0)`, a stable sort as guaranteed for
`Array.prototype.sort`) and delete the first `length - maxItems` keys. -/
def pruneProcessed (st : LedgerState) (maxItems : Nat) : LedgerState :=
  let entries := st.processed
  if entries.length ≤ maxItems then st
  else
    let sorted := entries.insertionSort fun a b => a.2.getD 0 ≤ b.2.getD 0
    let toDelete := entries.length - maxItems
    let victims := (sorted.take toDelete).map Prod.fst
    ⟨st.lastCheckedAt, entries.filter fun e => decide (e.1 ∉ victims)⟩

/-- JavaScript object assignment `obj[k] = v`: update an existing key in place
or append a fresh one. -/
def objSet (l : List (String × Option ℤ)) (k : String) (v : Option ℤ) :
    List (String × Option ℤ) :=
  if l.any fun e => decide (e.1 = k) then
    l.map fun e => if e.1 = k then (k, v) else e
  else l ++ [(k, v)]

/-- `markProcessed` from `src/storage/store.js`; `now` stands for `Date.now()`
and the prune limit is the source's default of 4000. -/
def markProcessed (st : LedgerState) (id : String) (now : ℤ) : LedgerState :=
  pruneProcessed ⟨st.lastCheckedAt, objSet st.processed id (some now)⟩ 4000

/-- The `activity` sub-object of a stored record, restricted to the fields the
matcher and delta engine read.  Start dates are `Option (Option ℤ)`: the outer
option is field presence (`??` chains), the inner one parseability of the date
(`none` models an invalid date whose `getTime()` is `NaN`). -/
structure ActivityRec where
  id : Option ℤ
  type : Option String
  sport_type : Option String
  start_date_local : Option (Option ℤ)
  start_date : Option (Option ℤ)
  distance_m : Option ℚ
  moving_time_s : Option ℚ
  total_elevation_gain_m : Option ℚ
  average_heartrate : Option ℚ
  average_watts : Option ℚ

/-- The `derived` sub-object of a stored record (stream-derived statistics). -/
structure DerivedRec where
  hr_avg_stream : Option ℚ
  hr_max_stream : Option ℚ
  power_avg : Option ℚ

/-- One normalized activity record as appended to the JSONL store. -/
structure StoredRec where
  activity : ActivityRec
  derived : DerivedRec

/-- `safeNum` from `src/utils/formatters.js`.  In this embedding non-numeric
and non-finite JavaScript values are already `none`, so `safeNum` is the
identity on `Option ℚ`. -/
def safeNum (x : Option ℚ) : Option ℚ := x

/-- JavaScript `a ?? b` on nullable values. -/
def coalesce {α : Type} (a b : Option α) : Option α :=
  match a with
  | some v => some v
  | none => b

/-- The current record's start instant inside `pickComparableLastWeek`:
`new Date(start_date_local ?? start_date ?? Date.now())`. -/
def startOfCurrent (a : ActivityRec) (now : ℤ) : Option ℤ :=
  (coalesce a.start_date_local (coalesce a.start_date (some (some now)))).getD none

/-- A candidate record's start instant inside `pickComparableLastWeek`:
`new Date(start_date_local ?? start_date ?? 0)`. -/
def startOfCandidate (a : ActivityRec) : Option ℤ :=
  (coalesce a.start_date_local (coalesce a.start_date (some (some 0)))).getD none

/-- The sort key used by the final comparator of `pickComparableLastWeek`
(`getTime()` of the candidate's start).  All sorted candidates have already
passed the parseability filter, so the `getD 0` completion is never hit. -/
def dateKey (r : StoredRec) : ℤ := (startOfCandidate r.activity).getD 0

/-- `pickComparableLastWeek` from `src/storage/store.js`: same type, start in
the inclusive 7–14 day window before the current start, distance within ±20%
when the current distance is known, most recent first.  `now` stands for
`Date.now()`.  In the distance filter the source divides by `curDist`; for
`curDist = 0` the IEEE quotient is `+∞` and the `≤ 0.2` test fails, which the
exact model renders as an explicit `false` branch. -/
def pickComparableLastWeek (now : ℤ) (current : StoredRec) (history : List StoredRec) :
    Option StoredRec :=
  match startOfCurrent current.activity now with
  | none => none
  | some curStart =>
    let startMax := curStart - 7 * 24 * 3600 * 1000
    let startMin := curStart - 14 * 24 * 3600 * 1000
    let curType := current.activity.type
    let curDist := safeNum current.activity.distance_m
    let f1 := history.filter fun r =>
      decide (r.activity.id ≠ none ∧ r.activity.id ≠ some 0 ∧ r.activity.id ≠ current.activity.id)
    let f2 := f1.filter fun r => decide (r.activity.type = curType)
    let f3 := f2.filter fun r =>
      match startOfCandidate r.activity with
      | none => false
      | some dt => decide (startMin ≤ dt ∧ dt ≤ startMax)
    let f4 := f3.filter fun r =>
      match curDist with
      | none => true
      | some c =>
        match safeNum r.activity.distance_m with
        | none => false
        | some d =>
          if d ≤ 0 then false
          else if c = 0 then false
          else decide (|d - c| / c ≤ 1 / 5)
    let candidates := f4.insertionSort fun a b => dateKey b ≤ dateKey a
    candidates.head?

/-- `isPaceBased` from `src/utils/stream-analysis.js`: substring match for
run/walk/hike on the lowercased type or sport sub-type. -/
def isPaceBased (activityType sportType : Option String) : Bool :=
  let t := ((activityType.getD "").toList.map Char.toLower)
  let s := ((sportType.getD "").toList.map Char.toLower)
  (decide ("run".toList <:+: t) || decide ("walk".toList <:+: t) ||
    decide ("hike".toList <:+: t) || decide ("run".toList <:+: s) ||
    decide ("walk".toList <:+: s) || decide ("hike".toList <:+: s))

/-- `avgPaceSecPerKm` from `src/utils/stream-analysis.js`. -/
def avgPaceSecPerKm (distance_m moving_time_s : Option ℚ) : Option ℚ :=
  match safeNum distance_m, safeNum moving_time_s with
  | some d, some t =>
    let dKm := d / 1000
    if dKm = 0 ∨ t = 0 ∨ dKm ≤ 0 ∨ t ≤ 0 then none else some (t / dKm)
  | _, _ => none

/-- `avgSpeedKmh` from `src/utils/stream-analysis.js`. -/
def avgSpeedKmh (distance_m moving_time_s : Option ℚ) : Option ℚ :=
  match safeNum distance_m, safeNum moving_time_s with
  | some d, some t =>
    if d = 0 ∨ t = 0 ∨ d ≤ 0 ∨ t ≤ 0 then none else some (msToKmh (d / t))
  | _, _ => none

/-- `pctDiff` from `src/utils/stream-analysis.js` (the finiteness guards are
vacuous over `ℚ`). -/
def pctDiff (a b : ℚ) : Option ℚ := if b = 0 then none else some ((a - b) / b)

/-- A guarded difference `x != null && y != null ? x - y : null`. -/
def deltaOpt (a b : Option ℚ) : Option ℚ :=
  match a, b with
  | some a, some b => some (a - b)
  | _, _ => none

/-- A guarded percentage difference `x != null && y != null ? pctDiff x y : null`. -/
def pctOpt (a b : Option ℚ) : Option ℚ :=
  match a, b with
  | some a, some b => pctDiff a b
  | _, _ => none

/-- The `delta` object returned by `compareCurrentVsPrev`. -/
structure DeltaObj where
  distance_m : Option ℚ
  moving_time_s : Option ℚ
  elevation_gain_m : Option ℚ
  avg_pace_sec_per_km : Option ℚ
  avg_pace_pct : Option ℚ
  avg_speed_kmh : Option ℚ
  avg_speed_pct : Option ℚ
  hr_avg : Option ℚ
  hr_max : Option ℚ
  power_avg_w : Option ℚ
  power_avg_pct : Option ℚ

/-- The comparison result returned by `compareCurrentVsPrev`. -/
structure Comparison where
  prev_activity_id : Option ℤ
  prev_start_date_local : Option (Option ℤ)
  mode : String
  delta : DeltaObj

/-- `compareCurrentVsPrev` from `src/storage/store.js`. -/
def compareCurrentVsPrev (current : StoredRec) (prev : Option StoredRec) : Option Comparison :=
  match prev with
  | none => none
  | some prevRec =>
    let cur := current.activity
    let old := prevRec.activity
    let paceBased := isPaceBased cur.type cur.sport_type
    let curPace := if paceBased then avgPaceSecPerKm cur.distance_m cur.moving_time_s else none
    let oldPace := if paceBased then avgPaceSecPerKm old.distance_m old.moving_time_s else none
    let curSpeed := if paceBased then none else avgSpeedKmh cur.distance_m cur.moving_time_s
    let oldSpeed := if paceBased then none else avgSpeedKmh old.distance_m old.moving_time_s
    let curHrAvg := safeNum (coalesce current.derived.hr_avg_stream cur.average_heartrate)
    let oldHrAvg := safeNum (coalesce prevRec.derived.hr_avg_stream old.average_heartrate)
    let curHrMax := safeNum (coalesce current.derived.hr_max_stream none)
    let oldHrMax := safeNum (coalesce prevRec.derived.hr_max_stream none)
    let curPwr := safeNum (coalesce current.derived.power_avg cur.average_watts)
    let oldPwr := safeNum (coalesce prevRec.derived.power_avg old.average_watts)
    some
      ⟨old.id, coalesce old.start_date_local old.start_date,
        (if paceBased then "pace" else "speed"),
        ⟨deltaOpt cur.distance_m old.distance_m,
          deltaOpt cur.moving_time_s old.moving_time_s,
          deltaOpt cur.total_elevation_gain_m old.total_elevation_gain_m,
          deltaOpt curPace oldPace, pctOpt curPace oldPace,
          deltaOpt curSpeed oldSpeed, pctOpt curSpeed oldSpeed,
          deltaOpt curHrAvg oldHrAvg, deltaOpt curHrMax oldHrMax,
          deltaOpt curPwr oldPwr, pctOpt curPwr oldPwr⟩⟩

/-- JavaScript `content.split("\x7bnl\x7d")` specialised to the newline
separator used by the store: split a character sequence at every newline,
keeping empty segments (a trailing newline yields a final empty segment). -/
def splitNl : List Char → List (List Char)
  | [] => [[]]
  | c :: cs =>
    if c = '\n' then [] :: splitNl cs
    else
      match splitNl cs with
      | [] => [[c]]
      | s :: ss => (c :: s) :: ss

/-- `appendStore` from `src/storage/store.js`: append one serialized record and
a newline to the log.  `JSON.stringify` is abstracted as `encode`; the store
file is its character content. -/
def appendStore {R : Type} (encode : R → List Char) (file : List Char) (record : R) :
    List Char :=
  file ++ encode record ++ ['\n']

/-- Appending a batch of records one by one. -/
def appendAll {R : Type} (encode : R → List Char) (file : List Char) (rs : List R) :
    List Char :=
  rs.foldl (appendStore encode) file

/-- `readStore` from `src/storage/store.js`: split the log on newlines, drop
empty lines (`filter(Boolean)`), keep the last `limit` lines
(`slice(Math.max(0, lines.length - limit))`) and parse each line, skipping
lines that fail to parse (`try ... catch \x7b\x7d`).  `JSON.parse` is abstracted
as `decode`, returning `none` on parse failure. -/
def readStore {R : Type} (decode : List Char → Option R) (limit : Nat) (file : List Char) :
    List R :=
  let lines := (splitNl file).filter fun l => decide (l ≠ [])
  let tail := lines.drop (lines.length - limit)
  tail.filterMap decode

/-- A log file consisting of the given newline-free lines, each terminated by a
newline. -/
def fileOf (ls : List (List Char)) : List Char :=
  (ls.map fun l => l ++ ['\n']).flatten

lemma foldl_add_secPerKm (l : List Split) (a : ℚ) :
    l.foldl (fun a b => a + b.secPerKm.getD 0) a = a + (l.map fun s => s.secPerKm.getD 0).sum := by
  induction l generalizing a with
  | nil => simp
  | cons x xs ih => simp [List.foldl_cons, ih]; ring

/-- Evaluation of `pacingInsight` on a four-split list whose paces are all
valid: the verdict is decided by the difference of the two half means. -/
lemma pacingInsight_four (s1 s2 s3 s4 : Split) (p1 p2 p3 p4 : ℚ)
    (h1 : s1.secPerKm = some p1) (h2 : s2.secPerKm = some p2)
    (h3 : s3.secPerKm = some p3) (h4 : s4.secPerKm = some p4) :
    pacingInsight [s1, s2, s3, s4] =
      (if |(p3 + p4) / 2 - (p1 + p2) / 2| < 5 then some "Pacing estável"
       else if (p3 + p4) / 2 - (p1 + p2) / 2 < 0 then some "Negative split ✅"
       else some "Fade ⚠️ (ritmo caiu)") := by
  have hf : ([s1, s2, s3, s4].filter fun s => s.secPerKm.isSome) = [s1, s2, s3, s4] := by
    simp [List.filter, h1, h2, h3, h4]
  unfold pacingInsight
  rw [if_neg (by simp)]
  simp only [hf]
  rw [if_neg (by simp)]
  simp only [List.length_cons, List.length_nil]
  norm_num [List.take, List.drop, List.foldl_cons, List.foldl_nil, h1, h2, h3, h4]

/-- A minimal split carrying only a pace value, used for concrete instances. -/
def paceSplit (p : ℚ) : Split :=
  ⟨1, "pace", 1000, p, some p, none, "", none, none, none⟩

/-- C3 (counterexample): four splits with strictly decreasing pace values
103, 102, 101, 100 s/km.  The half-mean difference is −2, whose absolute value
is below the stability threshold 5, so `pacingInsight` returns the stable
verdict — not the negative-split verdict the claim promises for every strictly
decreasing four-split list. -/
theorem pacingInsight_strict_decrease_cex :
    ((paceSplit 102).secPerKm.getD 0 < (paceSplit 103).secPerKm.getD 0 ∧
      (paceSplit 101).secPerKm.getD 0 < (paceSplit 102).secPerKm.getD 0 ∧
      (paceSplit 100).secPerKm.getD 0 < (paceSplit 101).secPerKm.getD 0) ∧
    pacingInsight [paceSplit 103, paceSplit 102, paceSplit 101, paceSplit 100] =
      some "Pacing estável" ∧
    pacingInsight [paceSplit 103, paceSplit 102, paceSplit 101, paceSplit 100] ≠
      some "Negative split ✅" := by
  refine ⟨by decide, ?_, ?_⟩
  · rw [pacingInsight_four _ _ _ _ 103 102 101 100 rfl rfl rfl rfl]
    rw [if_pos (by rw [abs_sub_comm, abs_of_pos (by norm_num)]; norm_num)]
  · rw [pacingInsight_four _ _ _ _ 103 102 101 100 rfl rfl rfl rfl]
    rw [if_pos (by rw [abs_sub_comm, abs_of_pos (by norm_num)]; norm_num)]
    decide

/-- C3 (amended): `pacingInsight` returns `none` whenever fewer than four
splits carry a valid pace value; and for a list of exactly four splits with
valid, strictly decreasing pace values it returns the negative-split verdict
provided the second-half mean undercuts the first-half mean by at least the
stability threshold 5 (otherwise the stable verdict takes priority). -/
theorem pacingInsight_insufficient_and_negative :
    (∀ splits : List Split, (splits.filter fun s => s.secPerKm.isSome).length < 4 →
      pacingInsight splits = none) ∧
    (∀ s1 s2 s3 s4 : Split, ∀ p1 p2 p3 p4 : ℚ,
      s1.secPerKm = some p1 → s2.secPerKm = some p2 → s3.secPerKm = some p3 →
      s4.secPerKm = some p4 → p2 < p1 → p3 < p2 → p4 < p3 →
      (p3 + p4) / 2 ≤ (p1 + p2) / 2 - 5 →
      pacingInsight [s1, s2, s3, s4] = some "Negative split ✅") := by
  constructor
  · intro splits h
    unfold pacingInsight
    by_cases hlen : splits.length < 4
    · rw [if_pos hlen]
    · rw [if_neg hlen]
      dsimp only
      rw [if_pos h]
  · intro s1 s2 s3 s4 p1 p2 p3 p4 h1 h2 h3 h4 hd1 hd2 hd3 hgap
    rw [pacingInsight_four s1 s2 s3 s4 p1 p2 p3 p4 h1 h2 h3 h4]
    rw [if_neg (by rw [abs_sub_comm, abs_of_pos (by linarith)]; linarith),
      if_pos (by linarith)]

/-- Witness for the amended C3 theorem at concrete inputs: three valid-pace
splits give no verdict, and paces 120, 119, 102, 101 (strictly decreasing,
half-mean gap 18) give the negative-split verdict. -/
theorem pacingInsight_insufficient_and_negative_witness :
    pacingInsight [paceSplit 100, paceSplit 101, paceSplit 102] = none ∧
    pacingInsight [paceSplit 120, paceSplit 119, paceSplit 102, paceSplit 101] =
      some "Negative split ✅" :=
  ⟨pacingInsight_insufficient_and_negative.1 _ (by decide),
    pacingInsight_insufficient_and_negative.2 _ _ _ _ 120 119 102 101 rfl rfl rfl rfl
      (by norm_num) (by norm_num) (by norm_num) (by norm_num)⟩

/-- C8: the pacing classifier of the source refines the specification's
classification algorithm: filter to valid-pace splits, require at least four,
compare the mean pace of the floor-half lists, classify stable / negative /
fade with the stability test taking priority.  The source's additional early
return for lists shorter than four splits agrees with the specification
because the valid sublist is then also shorter than four. -/
theorem pacingInsight_refines_spec (splits : List Split) :
    pacingInsight splits = (pacingInsightSpec splits).map labelString := by
  unfold pacingInsight pacingInsightSpec
  by_cases hlen : splits.length < 4
  · have hv : (splits.filter fun s => s.secPerKm.isSome).length < 4 :=
      lt_of_le_of_lt (List.length_filter_le _ _) hlen
    rw [if_pos hlen]
    dsimp only
    rw [if_pos hv]
    rfl
  · rw [if_neg hlen]
    dsimp only
    by_cases hv : (splits.filter fun s => s.secPerKm.isSome).length < 4
    · rw [if_pos hv, if_pos hv]; rfl
    · rw [if_neg hv, if_neg hv]
      rw [foldl_add_secPerKm, foldl_add_secPerKm]
      norm_num
      split_ifs <;> rfl

/-- C9: if the distance or time stream is absent, or the two streams disagree
in length, `computeSplits1km` returns the empty split list.  (The embedding is
a total function, which models the source's guarantee that malformed input
degrades to an empty result instead of throwing.) -/
theorem computeSplits1km_invalid_input (streams : StreamSet) (mode : String)
    (h : match streams.distance, streams.time with
      | some d, some t => d.length ≠ t.length
      | _, _ => True) :
    computeSplits1km streams mode = [] := by
  rcases streams with ⟨d, t, hr, w⟩
  rcases d with _ | d <;> rcases t with _ | t <;> simp_all [computeSplits1km]

/-- Witness for C9 at a concrete input: a two-sample distance stream with a
one-sample time stream yields no splits. -/
theorem computeSplits1km_invalid_input_witness :
    computeSplits1km ⟨some [0, 1500], some [0], none, none⟩ "pace" = [] :=
  computeSplits1km_invalid_input _ _ (by decide)

/-- The current activity of the delta-engine scenario: a run of 10000 m in
3600 s. -/
def curRunRec : StoredRec :=
  ⟨⟨some 1, some "run", none, none, none, some 10000, some 3600, none, none, none⟩,
    ⟨none, none, none⟩⟩

/-- The matched prior activity of the delta-engine scenario: a run of 10000 m
in 3660 s. -/
def prevRunRec : StoredRec :=
  ⟨⟨some 2, some "run", none, none, none, some 10000, some 3660, none, none, none⟩,
    ⟨none, none, none⟩⟩

/-- C7: comparing a 10000 m / 3600 s run against a 10000 m / 3660 s run
reports mode `pace` with pace delta `3600/10 - 3660/10 = -6` seconds per km,
negative because the current activity is faster. -/
theorem compareCurrentVsPrev_run_pace_delta :
    (compareCurrentVsPrev curRunRec (some prevRunRec)).map Comparison.mode = some "pace" ∧
    ((compareCurrentVsPrev curRunRec (some prevRunRec)).map fun c =>
      c.delta.avg_pace_sec_per_km) = some (some (3600 / 10 - 3660 / 10)) ∧
    (3600 / 10 - 3660 / 10 : ℚ) < 0 ∧ |(3600 / 10 - 3660 / 10 : ℚ)| = 3660 / 10 - 3600 / 10 := by
  have hm : isPaceBased (some "run") none = true := by decide
  refine ⟨by decide, ?_, by norm_num, ?_⟩
  · simp only [compareCurrentVsPrev, curRunRec, prevRunRec, hm, if_true, Option.map,
      avgPaceSecPerKm, safeNum, deltaOpt]
    norm_num
  · rw [abs_of_neg (by norm_num)]
    norm_num

lemma mkSplit_meters (dist time : List ℚ) (hr watts : Option (List (Option ℚ)))
    (mode : String) (si i c : Nat) :
    (mkSplit dist time hr watts mode si i c).meters = dist.getD i 0 - dist.getD si 0 := rfl

lemma mkSplit_seconds (dist time : List ℚ) (hr watts : Option (List (Option ℚ)))
    (mode : String) (si i c : Nat) :
    (mkSplit dist time hr watts mode si i c).seconds = time.getD i 0 - time.getD si 0 := rfl

/-- Loop invariant for the split count: starting at sample `i` with `k` samples
left and threshold `nextKm`, provided every earlier sample is below the
threshold and per-sample steps grow by at most 1000, the emitted splits `L`
satisfy: every remaining sample stays below `nextKm + 1000·L`, and if any split
was emitted some remaining sample reaches `nextKm + 1000·L − 1000`. -/
lemma splitsGo_length_bound (dist time : List ℚ) (hr watts : Option (List (Option ℚ)))
    (mode : String)
    (hstep : ∀ j, j + 1 < dist.length → dist.getD (j + 1) 0 ≤ dist.getD j 0 + 1000) :
    ∀ k i, ∀ (nextKm : ℚ), ∀ si c,
      i + k = dist.length →
      (∀ j, j < i → dist.getD j 0 < nextKm) →
      (i = 0 → dist.getD 0 0 < nextKm) →
      ((∀ j, i ≤ j → j < i + k →
        dist.getD j 0 <
          nextKm + 1000 * ((splitsGo dist time hr watts mode k i nextKm si c).length : ℚ)) ∧
       (0 < (splitsGo dist time hr watts mode k i nextKm si c).length →
        ∃ j, i ≤ j ∧ j < i + k ∧
          nextKm + 1000 * ((splitsGo dist time hr watts mode k i nextKm si c).length : ℚ) - 1000 ≤
            dist.getD j 0)) := by
  intro k
  induction k with
  | zero =>
    intro i nextKm si c hik hprev h0
    refine ⟨fun j hij hj => absurd (lt_of_le_of_lt hij hj) (by omega), fun h => absurd h ?_⟩
    simp [splitsGo]
  | succ k ih =>
    intro i nextKm si c hik hprev h0
    by_cases htr : nextKm ≤ dist.getD i 0
    · have hi0 : i ≠ 0 := by
        intro h
        subst h
        exact absurd htr (not_le.mpr (h0 rfl))
      have hlt : dist.getD i 0 < nextKm + 1000 := by
        have h1 : dist.getD (i - 1) 0 < nextKm := hprev _ (by omega)
        have h2 := hstep (i - 1) (by omega)
        rw [Nat.sub_add_cancel (by omega)] at h2
        linarith
      have hprev1 : ∀ j, j < i + 1 → dist.getD j 0 < nextKm + 1000 := by
        intro j hj
        rcases Nat.lt_succ_iff_lt_or_eq.mp hj with h | h
        · exact lt_trans (hprev j h) (by linarith)
        · subst h; exact hlt
      obtain ⟨IH1, IH2⟩ := ih (i + 1) (nextKm + 1000) i (c + 1) (by omega) hprev1
        (fun h => absurd h (Nat.succ_ne_zero i))
      have hout : splitsGo dist time hr watts mode (k + 1) i nextKm si c =
          mkSplit dist time hr watts mode si i c ::
            splitsGo dist time hr watts mode k (i + 1) (nextKm + 1000) i (c + 1) := by
        rw [splitsGo, if_pos htr]
      rw [hout]
      simp only [List.length_cons]
      generalize (splitsGo dist time hr watts mode k (i + 1) (nextKm + 1000) i (c + 1)).length = L
        at IH1 IH2 ⊢
      constructor
      · intro j hij hj
        rcases eq_or_lt_of_le hij with h | h
        · subst h
          have hnn : (0 : ℚ) ≤ 1000 * (L : ℚ) := by positivity
          push_cast
          linarith
        · have := IH1 j h (by omega)
          push_cast at this ⊢
          linarith
      · intro _
        by_cases hpos : 0 < L
        · obtain ⟨j, hj1, hj2, hj3⟩ := IH2 hpos
          refine ⟨j, by omega, by omega, ?_⟩
          push_cast at hj3 ⊢
          linarith
        · have hz : L = 0 := by omega
          subst hz
          refine ⟨i, le_refl i, by omega, ?_⟩
          push_cast
          linarith
    · have hprev1 : ∀ j, j < i + 1 → dist.getD j 0 < nextKm := by
        intro j hj
        rcases Nat.lt_succ_iff_lt_or_eq.mp hj with h | h
        · exact hprev j h
        · subst h; exact not_le.mp htr
      obtain ⟨IH1, IH2⟩ := ih (i + 1) nextKm si c (by omega) hprev1
        (fun h => absurd h (Nat.succ_ne_zero i))
      have hout : splitsGo dist time hr watts mode (k + 1) i nextKm si c =
          splitsGo dist time hr watts mode k (i + 1) nextKm si c := by
        rw [splitsGo, if_neg htr]
      rw [hout]
      constructor
      · intro j hij hj
        rcases eq_or_lt_of_le hij with h | h
        · subst h
          have : (0 : ℚ) ≤ 1000 * ((splitsGo dist time hr watts mode k (i + 1) nextKm si c).length : ℚ) := by
            positivity
          linarith [not_le.mp htr]
        · exact IH1 j h (by omega)
      · intro h
        obtain ⟨j, hj1, hj2, hj3⟩ := IH2 h
        exact ⟨j, by omega, by omega, hj3⟩

lemma getD_mono_of_adjacent (dist : List ℚ)
    (hmono : ∀ j, j + 1 < dist.length → dist.getD j 0 ≤ dist.getD (j + 1) 0) :
    ∀ a b, a ≤ b → b < dist.length → dist.getD a 0 ≤ dist.getD b 0 := by
  intro a b hab hb
  induction b with
  | zero =>
    have ha : a = 0 := by omega
    subst ha
    exact le_refl _
  | succ b ih =>
    rcases eq_or_lt_of_le hab with h | h
    · subst h
      exact le_refl _
    · exact le_trans (ih (by omega) (by omega)) (hmono b hb)

/-- C1 (amended): for a cumulative distance stream (first sample in
`[0, 1000)`, non-decreasing, per-sample increase at most one segment length)
paired with a time stream of equal length, the number of splits emitted by
`computeSplits1km` equals `⌊finalDistance / 1000⌋`; in particular the leftover
samples after the last threshold crossing contribute no split. -/
theorem computeSplits1km_count (dist time : List ℚ) (hr watts : Option (List (Option ℚ)))
    (mode : String) (hne : dist ≠ []) (hlen : dist.length = time.length)
    (h0lo : 0 ≤ dist.getD 0 0) (h0hi : dist.getD 0 0 < 1000)
    (hmono : ∀ j, j + 1 < dist.length → dist.getD j 0 ≤ dist.getD (j + 1) 0)
    (hstep : ∀ j, j + 1 < dist.length → dist.getD (j + 1) 0 ≤ dist.getD j 0 + 1000) :
    ⌊dist.getD (dist.length - 1) 0 / 1000⌋ =
      ((computeSplits1km ⟨some dist, some time, hr, watts⟩ mode).length : ℤ) := by
  have hn : 0 < dist.length := List.length_pos.mpr hne
  have hcs : computeSplits1km ⟨some dist, some time, hr, watts⟩ mode =
      splitsGo dist time hr watts mode dist.length 0 1000 0 0 := by
    simp [computeSplits1km, hlen]
  obtain ⟨H1, H2⟩ := splitsGo_length_bound dist time hr watts mode hstep dist.length 0 1000 0 0
    (by omega) (fun j hj => absurd hj (Nat.not_lt_zero j)) (fun _ => h0hi)
  rw [hcs]
  generalize hG : (splitsGo dist time hr watts mode dist.length 0 1000 0 0).length = L
    at H1 H2 ⊢
  have hupper : dist.getD (dist.length - 1) 0 < 1000 + 1000 * (L : ℚ) :=
    H1 (dist.length - 1) (Nat.zero_le _) (by omega)
  have hlower : 1000 * (L : ℚ) ≤ dist.getD (dist.length - 1) 0 := by
    by_cases hL : 0 < L
    · obtain ⟨j, hj1, hj2, hj3⟩ := H2 hL
      have := getD_mono_of_adjacent dist hmono j (dist.length - 1) (by omega) (by omega)
      linarith
    · have hz : L = 0 := by omega
      subst hz
      have := getD_mono_of_adjacent dist hmono 0 (dist.length - 1) (Nat.zero_le _) (by omega)
      push_cast
      linarith
  rw [Int.floor_eq_iff]
  constructor
  · rw [le_div_iff₀ (by norm_num)]
    push_cast
    linarith
  · rw [div_lt_iff₀ (by norm_num)]
    push_cast
    linarith

/-- C1 (counterexample): the claim quantifies over every input whose distance
and time arrays are present and of equal length.  The single-sample stream
`dist = [5000]`, `time = [0]` is such an input; `computeSplits1km` emits one
split for it, while `⌊5000 / 1000⌋ = 5`. -/
theorem computeSplits1km_count_cex :
    ((computeSplits1km ⟨some [5000], some [0], none, none⟩ "pace").length : ℤ) = 1 ∧
    ⌊(([5000] : List ℚ).getD 0 0) / 1000⌋ = (5 : ℤ) ∧ (1 : ℤ) ≠ 5 := by
  refine ⟨by decide, ?_, by decide⟩
  rw [show (([5000] : List ℚ).getD 0 0) / 1000 = 5 by norm_num [List.getD]]
  norm_num

/-- Witness for the amended C1 theorem: the five-sample cumulative stream
`[0, 600, 1200, 1900, 2500]` satisfies all hypotheses and yields
`⌊2500 / 1000⌋ = 2` splits. -/
theorem computeSplits1km_count_witness :
    ⌊(([0, 600, 1200, 1900, 2500] : List ℚ).getD
        (([0, 600, 1200, 1900, 2500] : List ℚ).length - 1) 0) / 1000⌋ =
      ((computeSplits1km
        ⟨some [0, 600, 1200, 1900, 2500], some [0, 60, 120, 180, 240], none, none⟩
        "pace").length : ℤ) :=
  computeSplits1km_count _ _ _ _ _ (by decide) (by decide) (by decide) (by decide)
    (by
      intro j hj
      have hj4 : j < 4 := by
        simp only [List.length_cons, List.length_nil] at hj
        omega
      interval_cases j <;> decide)
    (by
      intro j hj
      have hj4 : j < 4 := by
        simp only [List.length_cons, List.length_nil] at hj
        omega
      interval_cases j <;> norm_num [List.getD])

/-- Loop invariant for split lengths: if per-sample increases are bounded by
`S ≤ 1000`, every earlier sample is below the threshold, and the open segment's
start sample lies in `[nextKm − 1000, nextKm − 1000 + S)`, then every split the
loop emits covers strictly between `1000 − S` and `1000 + S` metres. -/
lemma splitsGo_meters_bound (dist time : List ℚ) (hr watts : Option (List (Option ℚ)))
    (mode : String) (S : ℚ) (hS1 : S ≤ 1000)
    (hstep : ∀ j, j + 1 < dist.length → dist.getD (j + 1) 0 ≤ dist.getD j 0 + S) :
    ∀ k i, ∀ (nextKm : ℚ), ∀ si c,
      i + k = dist.length →
      (∀ j, j < i → dist.getD j 0 < nextKm) →
      (i = 0 → dist.getD 0 0 < nextKm) →
      nextKm - 1000 ≤ dist.getD si 0 →
      dist.getD si 0 < nextKm - 1000 + S →
      ∀ s ∈ splitsGo dist time hr watts mode k i nextKm si c,
        1000 - S < s.meters ∧ s.meters < 1000 + S := by
  intro k
  induction k with
  | zero =>
    intro i nextKm si c _ _ _ _ _ s hs
    simp [splitsGo] at hs
  | succ k ih =>
    intro i nextKm si c hik hprev h0 hlo hhi s hs
    by_cases htr : nextKm ≤ dist.getD i 0
    · have hi0 : i ≠ 0 := by
        intro h
        subst h
        exact absurd htr (not_le.mpr (h0 rfl))
      have hlt : dist.getD i 0 < nextKm + S := by
        have h1 : dist.getD (i - 1) 0 < nextKm := hprev _ (by omega)
        have h2 := hstep (i - 1) (by omega)
        rw [Nat.sub_add_cancel (by omega)] at h2
        linarith
      rw [splitsGo, if_pos htr] at hs
      rcases List.mem_cons.mp hs with h | h
      · subst h
        rw [mkSplit_meters]
        constructor
        · linarith
        · linarith
      · have hprev1 : ∀ j, j < i + 1 → dist.getD j 0 < nextKm + 1000 := by
          intro j hj
          rcases Nat.lt_succ_iff_lt_or_eq.mp hj with hlt2 | heq
          · exact lt_trans (hprev j hlt2) (by linarith)
          · subst heq
            linarith
        exact ih (i + 1) (nextKm + 1000) i (c + 1) (by omega) hprev1
          (fun hz => absurd hz (Nat.succ_ne_zero i)) (by linarith) (by linarith) s h
    · rw [splitsGo, if_neg htr] at hs
      have hprev1 : ∀ j, j < i + 1 → dist.getD j 0 < nextKm := by
        intro j hj
        rcases Nat.lt_succ_iff_lt_or_eq.mp hj with hlt2 | heq
        · exact hprev j hlt2
        · subst heq
          exact not_le.mp htr
      exact ih (i + 1) nextKm si c (by omega) hprev1
        (fun hz => absurd hz (Nat.succ_ne_zero i)) hlo hhi s hs

/-- C2 (amended): for a cumulative distance stream that starts at 0 and whose
per-sample increase is bounded by `S` with `0 < S ≤ 1000`, every split emitted
by `computeSplits1km` covers strictly between `1000 − S` and `1000 + S`
metres.  The claimed lower bound of one full segment length does not hold: a
split that overshoots its threshold shortens the next one (see the
counterexample). -/
theorem computeSplits1km_meters_bound (dist time : List ℚ)
    (hr watts : Option (List (Option ℚ))) (mode : String) (S : ℚ)
    (hS0 : 0 < S) (hS1 : S ≤ 1000) (hlen : dist.length = time.length)
    (hfirst : dist.getD 0 0 = 0)
    (hstep : ∀ j, j + 1 < dist.length → dist.getD (j + 1) 0 ≤ dist.getD j 0 + S) :
    ∀ s ∈ computeSplits1km ⟨some dist, some time, hr, watts⟩ mode,
      1000 - S < s.meters ∧ s.meters < 1000 + S := by
  have hcs : computeSplits1km ⟨some dist, some time, hr, watts⟩ mode =
      splitsGo dist time hr watts mode dist.length 0 1000 0 0 := by
    simp [computeSplits1km, hlen]
  rw [hcs]
  exact splitsGo_meters_bound dist time hr watts mode S hS1 hstep dist.length 0 1000 0 0
    (by omega) (fun j hj => absurd hj (Nat.not_lt_zero j)) (fun _ => by rw [hfirst]; norm_num)
    (by rw [hfirst]; norm_num) (by rw [hfirst]; linarith)

/-- C2 (counterexample): the cumulative stream `[0, 999, 1500, 2000]` (maximum
per-sample step 999) produces splits of 1500 m and 500 m: the second split is
shorter than one full segment, violating the claimed interval
`[1000, 1000 + maxStep)`. -/
theorem computeSplits1km_meters_bound_cex :
    ((computeSplits1km ⟨some [0, 999, 1500, 2000], some [0, 1, 2, 3], none, none⟩
        "pace").map Split.meters) = [1500, 500] ∧
    ¬ ((1000 : ℚ) ≤ 500 ∧ (500 : ℚ) < 1000 + 999) := by
  constructor
  · norm_num [computeSplits1km, splitsGo, mkSplit, List.getD]
  · intro h
    have := h.1
    norm_num at this

/-- Witness for the amended C2 theorem: with step bound `S = 1000` the stream
`[0, 999, 1500, 2000]` has both its splits strictly between 0 and 2000 m. -/
theorem computeSplits1km_meters_bound_witness :
    ((computeSplits1km ⟨some [0, 999, 1500, 2000], some [0, 1, 2, 3], none, none⟩ "pace").all
      fun s => decide (1000 - 1000 < s.meters ∧ s.meters < 1000 + 1000)) = true :=
  List.all_eq_true.mpr fun s hs =>
    decide_eq_true
      (computeSplits1km_meters_bound _ _ _ _ _ 1000 (by norm_num) (by norm_num) (by decide)
        (by decide)
        (by
          intro j hj
          have hj3 : j < 3 := by
            simp only [List.length_cons, List.length_nil] at hj
            omega
          interval_cases j <;> norm_num [List.getD])
        s hs)

/-- Loop invariant for the telescoping sums: either the loop emits nothing, or
there is a last closing sample index `j` such that the emitted meters and
seconds sum to the stream differences between `j` and the segment start, and
`j` reached the final threshold. -/
lemma splitsGo_telescope (dist time : List ℚ) (hr watts : Option (List (Option ℚ)))
    (mode : String) :
    ∀ k i, ∀ (nextKm : ℚ), ∀ si c,
      i + k = dist.length →
      (splitsGo dist time hr watts mode k i nextKm si c = [] ∨
       ∃ j, i ≤ j ∧ j < dist.length ∧
        ((splitsGo dist time hr watts mode k i nextKm si c).map Split.meters).sum =
          dist.getD j 0 - dist.getD si 0 ∧
        ((splitsGo dist time hr watts mode k i nextKm si c).map Split.seconds).sum =
          time.getD j 0 - time.getD si 0 ∧
        nextKm + 1000 * ((splitsGo dist time hr watts mode k i nextKm si c).length : ℚ) -
          1000 ≤ dist.getD j 0) := by
  intro k
  induction k with
  | zero =>
    intro i nextKm si c _
    exact Or.inl rfl
  | succ k ih =>
    intro i nextKm si c hik
    by_cases htr : nextKm ≤ dist.getD i 0
    · have hout : splitsGo dist time hr watts mode (k + 1) i nextKm si c =
          mkSplit dist time hr watts mode si i c ::
            splitsGo dist time hr watts mode k (i + 1) (nextKm + 1000) i (c + 1) := by
        rw [splitsGo, if_pos htr]
      rcases ih (i + 1) (nextKm + 1000) i (c + 1) (by omega) with hnil | ⟨j, hj1, hj2, hmet, hsec, hthr⟩
      · refine Or.inr ⟨i, le_refl i, by omega, ?_, ?_, ?_⟩
        · rw [hout, hnil]
          simp [mkSplit_meters]
        · rw [hout, hnil]
          simp [mkSplit_seconds]
        · rw [hout, hnil]
          simp only [List.length_cons, List.length_nil]
          push_cast
          linarith
      · refine Or.inr ⟨j, by omega, hj2, ?_, ?_, ?_⟩
        · rw [hout]
          simp only [List.map_cons, List.sum_cons, mkSplit_meters, hmet]
          ring
        · rw [hout]
          simp only [List.map_cons, List.sum_cons, mkSplit_seconds, hsec]
          ring
        · rw [hout]
          simp only [List.length_cons]
          push_cast at hthr ⊢
          linarith
    · have hout : splitsGo dist time hr watts mode (k + 1) i nextKm si c =
          splitsGo dist time hr watts mode k (i + 1) nextKm si c := by
        rw [splitsGo, if_neg htr]
      rw [hout]
      rcases ih (i + 1) nextKm si c (by omega) with hnil | ⟨j, hj1, hj2, hmet, hsec, hthr⟩
      · exact Or.inl hnil
      · exact Or.inr ⟨j, by omega, hj2, hmet, hsec, hthr⟩

/-- C10: for any valid distance/time input on which `computeSplits1km` emits at
least one split, the splits are boundary-adjacent: their meters telescope to
`dist[iN] − dist[0]` and their seconds to `time[iN] − time[0]`, where `iN` is
the sample index closing the last split (it reached the last crossed
threshold `1000 · count`). -/
theorem computeSplits1km_telescope (dist time : List ℚ)
    (hr watts : Option (List (Option ℚ))) (mode : String)
    (hlen : dist.length = time.length)
    (hne : computeSplits1km ⟨some dist, some time, hr, watts⟩ mode ≠ []) :
    ∃ iN, iN < dist.length ∧
      ((computeSplits1km ⟨some dist, some time, hr, watts⟩ mode).map Split.meters).sum =
        dist.getD iN 0 - dist.getD 0 0 ∧
      ((computeSplits1km ⟨some dist, some time, hr, watts⟩ mode).map Split.seconds).sum =
        time.getD iN 0 - time.getD 0 0 ∧
      1000 * ((computeSplits1km ⟨some dist, some time, hr, watts⟩ mode).length : ℚ) ≤
        dist.getD iN 0 := by
  have hcs : computeSplits1km ⟨some dist, some time, hr, watts⟩ mode =
      splitsGo dist time hr watts mode dist.length 0 1000 0 0 := by
    simp [computeSplits1km, hlen]
  rw [hcs] at hne ⊢
  rcases splitsGo_telescope dist time hr watts mode dist.length 0 1000 0 0 (by omega) with
    hnil | ⟨j, _, hj2, hmet, hsec, hthr⟩
  · exact absurd hnil hne
  · exact ⟨j, hj2, hmet, hsec, by linarith⟩

/-- Witness for the C10 theorem: on the stream `[0, 600, 1200, 1900, 2500]`
with times `[0, 60, 120, 180, 240]` the two splits' meters and seconds
telescope to the stream differences at the last closing sample. -/
theorem computeSplits1km_telescope_witness :
    ∃ iN, iN < ([0, 600, 1200, 1900, 2500] : List ℚ).length ∧
      ((computeSplits1km
        ⟨some [0, 600, 1200, 1900, 2500], some [0, 60, 120, 180, 240], none, none⟩
        "pace").map Split.meters).sum =
        ([0, 600, 1200, 1900, 2500] : List ℚ).getD iN 0 -
          ([0, 600, 1200, 1900, 2500] : List ℚ).getD 0 0 ∧
      ((computeSplits1km
        ⟨some [0, 600, 1200, 1900, 2500], some [0, 60, 120, 180, 240], none, none⟩
        "pace").map Split.seconds).sum =
        ([0, 60, 120, 180, 240] : List ℚ).getD iN 0 -
          ([0, 60, 120, 180, 240] : List ℚ).getD 0 0 ∧
      1000 * ((computeSplits1km
        ⟨some [0, 600, 1200, 1900, 2500], some [0, 60, 120, 180, 240], none, none⟩
        "pace").length : ℚ) ≤ ([0, 600, 1200, 1900, 2500] : List ℚ).getD iN 0 :=
  computeSplits1km_telescope _ _ _ _ _ (by decide) (by decide)

lemma filter_not_mem_take_keys (l : List (String × Option ℤ)) (t : Nat)
    (hnodup : (l.map Prod.fst).Nodup) :
    (l.filter fun e => decide (e.1 ∉ (l.take t).map Prod.fst)) = l.drop t := by
  have h1 : ((l.take t).filter fun e => decide (e.1 ∉ (l.take t).map Prod.fst)) = [] := by
    rw [List.filter_eq_nil_iff]
    intro e he
    simp only [decide_eq_true_eq, not_not]
    exact List.mem_map_of_mem Prod.fst he
  have h2 : ((l.drop t).filter fun e => decide (e.1 ∉ (l.take t).map Prod.fst)) = l.drop t := by
    rw [List.filter_eq_self]
    intro e he
    simp only [decide_eq_true_eq]
    intro hmem
    have hd := hnodup
    rw [← List.take_append_drop t l, List.map_append, List.nodup_append] at hd
    exact hd.2.2 hmem (List.mem_map_of_mem Prod.fst he)
  calc (l.filter fun e => decide (e.1 ∉ (l.take t).map Prod.fst))
      = ((l.take t ++ l.drop t).filter fun e => decide (e.1 ∉ (l.take t).map Prod.fst)) := by
        rw [List.take_append_drop]
    _ = l.drop t := by rw [List.filter_append, h1, h2, List.nil_append]

instance : IsTotal (String × Option ℤ) fun a b => a.2.getD 0 ≤ b.2.getD 0 :=
  ⟨fun _ _ => le_total _ _⟩

instance : IsTrans (String × Option ℤ) fun a b => a.2.getD 0 ≤ b.2.getD 0 :=
  ⟨fun _ _ _ => le_trans⟩

/-- C5: pruning a ledger with distinct keys: a processed map with at most
`maxItems` entries is left unchanged; one with more entries is cut down to
exactly `maxItems` entries; and when the mark timestamps are strictly
increasing in entry order, exactly the `length − maxItems` oldest-marked
entries are evicted (the rest survive in order). -/
theorem pruneProcessed_spec (st : LedgerState) (maxItems : Nat)
    (hnodup : (st.processed.map Prod.fst).Nodup) :
    (st.processed.length ≤ maxItems → pruneProcessed st maxItems = st) ∧
    (maxItems < st.processed.length →
      (pruneProcessed st maxItems).processed.length = maxItems) ∧
    (maxItems < st.processed.length →
      st.processed.Pairwise (fun a b => a.2.getD 0 < b.2.getD 0) →
      (pruneProcessed st maxItems).processed =
        st.processed.drop (st.processed.length - maxItems)) := by
  refine ⟨?_, ?_, ?_⟩
  · intro hle
    unfold pruneProcessed
    rw [if_pos hle]
  · intro hgt
    unfold pruneProcessed
    rw [if_neg (not_le.mpr hgt)]
    dsimp only
    have hperm : (st.processed.insertionSort fun a b => a.2.getD 0 ≤ b.2.getD 0).Perm
        st.processed := List.perm_insertionSort _ _
    have hnodup2 : ((st.processed.insertionSort fun a b =>
        a.2.getD 0 ≤ b.2.getD 0).map Prod.fst).Nodup :=
      ((hperm.map Prod.fst).symm).nodup hnodup
    have hlen2 := hperm.length_eq
    rw [(hperm.symm.filter _).length_eq,
      filter_not_mem_take_keys _ (st.processed.length - maxItems) hnodup2,
      List.length_drop, hlen2]
    omega
  · intro hgt hinc
    unfold pruneProcessed
    rw [if_neg (not_le.mpr hgt)]
    dsimp only
    have hsorted : (st.processed.insertionSort fun a b => a.2.getD 0 ≤ b.2.getD 0) =
        st.processed :=
      List.Sorted.insertionSort_eq (hinc.imp fun h => le_of_lt h)
    rw [hsorted, filter_not_mem_take_keys _ (st.processed.length - maxItems) hnodup]

/-- Witness for the C5 theorem: a three-entry ledger with increasing marks,
pruned to two entries, keeps the two newest; pruning with a limit of five is a
no-op. -/
theorem pruneProcessed_spec_witness :
    (pruneProcessed ⟨0, [("a", some 1), ("b", some 2), ("c", some 3)]⟩ 2).processed.length = 2 ∧
    (pruneProcessed ⟨0, [("a", some 1), ("b", some 2), ("c", some 3)]⟩ 2).processed =
      [("a", some 1), ("b", some 2), ("c", some 3)].drop 1 ∧
    pruneProcessed ⟨0, [("a", some 1), ("b", some 2), ("c", some 3)]⟩ 5 =
      ⟨0, [("a", some 1), ("b", some 2), ("c", some 3)]⟩ :=
  ⟨(pruneProcessed_spec ⟨0, [("a", some 1), ("b", some 2), ("c", some 3)]⟩ 2
      (by decide)).2.1 (by decide),
   (pruneProcessed_spec ⟨0, [("a", some 1), ("b", some 2), ("c", some 3)]⟩ 2
      (by decide)).2.2 (by decide) (by decide),
   (pruneProcessed_spec ⟨0, [("a", some 1), ("b", some 2), ("c", some 3)]⟩ 5
      (by decide)).1 (by decide)⟩

lemma splitNl_append_newline (xs ys : List Char) (h : '\n' ∉ xs) :
    splitNl (xs ++ '\n' :: ys) = xs :: splitNl ys := by
  induction xs with
  | nil => simp [splitNl]
  | cons c cs ih =>
    have hc : ¬ c = '\n' := fun hh => h (hh ▸ List.mem_cons_self c cs)
    have h2 : '\n' ∉ cs := fun hh => h (List.mem_cons_of_mem c hh)
    simp only [List.cons_append, splitNl, if_neg hc, List.append_eq, ih h2]

lemma fileOf_append (a b : List (List Char)) : fileOf (a ++ b) = fileOf a ++ fileOf b := by
  simp [fileOf]

lemma splitNl_fileOf (ls : List (List Char)) (h : ∀ l ∈ ls, '\n' ∉ l) :
    splitNl (fileOf ls) = ls ++ [[]] := by
  induction ls with
  | nil => simp [fileOf, splitNl]
  | cons l ls ih =>
    have h1 : '\n' ∉ l := h l (List.mem_cons_self l ls)
    have h2 : ∀ x ∈ ls, '\n' ∉ x := fun x hx => h x (List.mem_cons_of_mem l hx)
    have hstep : fileOf (l :: ls) = l ++ '\n' :: fileOf ls := by
      simp [fileOf]
    rw [hstep, splitNl_append_newline _ _ h1, ih h2, List.cons_append]

lemma appendAll_fileOf {R : Type} (encode : R → List Char) (pre : List (List Char))
    (rs : List R) :
    appendAll encode (fileOf pre) rs = fileOf (pre ++ rs.map encode) := by
  induction rs generalizing pre with
  | nil => simp [appendAll]
  | cons r rs ih =>
    have hstep : appendAll encode (fileOf pre) (r :: rs) =
        appendAll encode (fileOf (pre ++ [encode r])) rs := by
      rw [appendAll, List.foldl_cons]
      congr 1
      rw [fileOf_append, appendStore]
      simp [fileOf]
    rw [hstep, ih, List.append_assoc]
    rfl

/-- C6: appending `N` records to a store whose prior content is any list of
newline-free lines (some possibly corrupted, i.e. undecodable) and reading back
with a line budget at least the total line count returns every decodable prior
record followed by all `N` appended records, in order.  `encode`/`decode`
abstract `JSON.stringify`/`JSON.parse`, with the properties the source relies
on: stringify emits one non-empty newline-free line and parse inverts it;
parse failure (`none`) on a corrupted line skips just that line. -/
theorem readStore_roundtrip {R : Type} (encode : R → List Char)
    (decode : List Char → Option R)
    (hrt : ∀ r, decode (encode r) = some r)
    (hnl : ∀ r, '\n' ∉ encode r)
    (hne : ∀ r, encode r ≠ [])
    (pre : List (List Char)) (hpre : ∀ l ∈ pre, '\n' ∉ l)
    (rs : List R) (limit : Nat)
    (hlimit : pre.length + rs.length ≤ limit) :
    readStore decode limit (appendAll encode (fileOf pre) rs) =
      ((pre.filter fun l => decide (l ≠ [])).filterMap decode) ++ rs := by
  rw [appendAll_fileOf]
  unfold readStore
  dsimp only
  rw [splitNl_fileOf _ (by
    intro l hl
    rcases List.mem_append.mp hl with h | h
    · exact hpre l h
    · obtain ⟨r, _, rfl⟩ := List.mem_map.mp h
      exact hnl r)]
  have hfil : (((pre ++ rs.map encode) ++ [[]]).filter fun l => decide (l ≠ [])) =
      (pre.filter fun l => decide (l ≠ [])) ++ rs.map encode := by
    rw [List.filter_append, List.filter_append]
    have h1 : (([[]] : List (List Char)).filter fun l => decide (l ≠ [])) = [] := by
      simp
    have h2 : ((rs.map encode).filter fun l => decide (l ≠ [])) = rs.map encode := by
      rw [List.filter_eq_self]
      intro l hl
      obtain ⟨r, _, rfl⟩ := List.mem_map.mp hl
      simpa using hne r
    rw [h1, h2, List.append_nil]
  rw [hfil]
  have hlen : ((pre.filter fun l => decide (l ≠ [])) ++ rs.map encode).length ≤ limit := by
    have hf := List.length_filter_le (fun l => decide (l ≠ [])) pre
    rw [List.length_append, List.length_map]
    omega
  rw [Nat.sub_eq_zero_of_le hlen, List.drop_zero, List.filterMap_append]
  congr 1
  rw [List.filterMap_map]
  have hc : (decode ∘ encode) = some := funext hrt
  rw [hc, List.filterMap_some]

/-- A toy serialisable record type for the store witness. -/
def encodeBoolLine (b : Bool) : List Char := if b then ['t'] else ['f']

/-- Parser for `encodeBoolLine`; anything else is a corrupt line. -/
def decodeBoolLine (l : List Char) : Option Bool :=
  match l with
  | ['t'] => some true
  | ['f'] => some false
  | _ => none

/-- Witness for the C6 theorem: a store holding a corrupt line `"x"`, an empty
line and a valid `"t"` line, after appending `true` and `false`, reads back as
`[true, true, false]`. -/
theorem readStore_roundtrip_witness :
    readStore decodeBoolLine 10
        (appendAll encodeBoolLine (fileOf [['x'], [], ['t']]) [true, false]) =
      (([['x'], [], ['t']].filter fun l => decide (l ≠ [])).filterMap decodeBoolLine) ++
        [true, false] :=
  readStore_roundtrip encodeBoolLine decodeBoolLine
    (by intro r; cases r <;> rfl)
    (by intro r; cases r <;> decide)
    (by intro r; cases r <;> decide)
    [['x'], [], ['t']] (by decide) [true, false] 10 (by decide)

/-- The conjunction of the four candidate filters of `pickComparableLastWeek`,
given the current record's resolved start `curStart`: a present, non-zero
identifier different from the current one; exactly the current type; a
parseable start inside the inclusive `[curStart − 14 d, curStart − 7 d]`
window; and, only when the current distance is known, a positive distance
within ±20% of it. -/
def candidatePasses (current : StoredRec) (curStart : ℤ) (r : StoredRec) : Bool :=
  (decide (r.activity.id ≠ none ∧ r.activity.id ≠ some 0 ∧
      r.activity.id ≠ current.activity.id)) &&
  (decide (r.activity.type = current.activity.type)) &&
  (match startOfCandidate r.activity with
   | none => false
   | some dt =>
     decide (curStart - 14 * 24 * 3600 * 1000 ≤ dt ∧ dt ≤ curStart - 7 * 24 * 3600 * 1000)) &&
  (match safeNum current.activity.distance_m with
   | none => true
   | some c =>
     match safeNum r.activity.distance_m with
     | none => false
     | some d =>
       if d ≤ 0 then false
       else if c = 0 then false
       else decide (|d - c| / c ≤ 1 / 5))

instance : IsTotal StoredRec fun a b => dateKey b ≤ dateKey a :=
  ⟨fun _ _ => (le_total _ _).symm⟩

instance : IsTrans StoredRec fun a b => dateKey b ≤ dateKey a :=
  ⟨fun _ _ _ h1 h2 => le_trans h2 h1⟩

lemma head_insertionSortDesc_max (l : List StoredRec) (r : StoredRec)
    (h : (l.insertionSort fun a b => dateKey b ≤ dateKey a).head? = some r) :
    r ∈ l ∧ ∀ r2 ∈ l, dateKey r2 ≤ dateKey r := by
  have hperm := List.perm_insertionSort (fun a b => dateKey b ≤ dateKey a) l
  have hsorted := List.sorted_insertionSort (fun a b => dateKey b ≤ dateKey a) l
  cases hs : l.insertionSort fun a b => dateKey b ≤ dateKey a with
  | nil => rw [hs] at h; cases h
  | cons x xs =>
    rw [hs] at h hperm hsorted
    have hx : r = x := by
      simpa using h.symm
    subst hx
    rw [List.sorted_cons] at hsorted
    constructor
    · exact hperm.mem_iff.mp (List.mem_cons_self r xs)
    · intro r2 hr2
      rcases List.mem_cons.mp (hperm.mem_iff.mpr hr2) with hx2 | hm
      · rw [hx2]
      · exact hsorted.1 r2 hm

/-- C4: behaviour of `pickComparableLastWeek`.  If the current record's start
cannot be parsed the result is `null`; otherwise the returned record, when any,
is a history record passing all four candidate filters whose start timestamp
is maximal among all passing records, and whenever some history record passes
the filters a record is returned. -/
theorem pickComparableLastWeek_spec (now : ℤ) (current : StoredRec)
    (history : List StoredRec) :
    (startOfCurrent current.activity now = none →
      pickComparableLastWeek now current history = none) ∧
    (∀ cs, startOfCurrent current.activity now = some cs →
      (∀ r, pickComparableLastWeek now current history = some r →
        r ∈ history ∧ candidatePasses current cs r = true ∧
        ∀ r2 ∈ history, candidatePasses current cs r2 = true → dateKey r2 ≤ dateKey r) ∧
      ((∃ r ∈ history, candidatePasses current cs r = true) →
        (pickComparableLastWeek now current history).isSome)) := by
  constructor
  · intro h
    unfold pickComparableLastWeek
    rw [h]
  · intro cs hcs
    unfold pickComparableLastWeek
    rw [hcs]
    dsimp only
    have hmem : ∀ rr : StoredRec,
        (rr ∈ ((((history.filter fun r =>
            decide (r.activity.id ≠ none ∧ r.activity.id ≠ some 0 ∧
              r.activity.id ≠ current.activity.id)).filter fun r =>
            decide (r.activity.type = current.activity.type)).filter fun r =>
            match startOfCandidate r.activity with
            | none => false
            | some dt =>
              decide (cs - 14 * 24 * 3600 * 1000 ≤ dt ∧ dt ≤ cs - 7 * 24 * 3600 * 1000)).filter
            fun r =>
            match safeNum current.activity.distance_m with
            | none => true
            | some c =>
              match safeNum r.activity.distance_m with
              | none => false
              | some d =>
                if d ≤ 0 then false
                else if c = 0 then false
                else decide (|d - c| / c ≤ 1 / 5))) ↔
          rr ∈ history ∧ candidatePasses current cs rr = true := by
      intro rr
      simp only [List.mem_filter, candidatePasses, Bool.and_eq_true]
      tauto
    generalize hG : (((history.filter fun r =>
        decide (r.activity.id ≠ none ∧ r.activity.id ≠ some 0 ∧
          r.activity.id ≠ current.activity.id)).filter fun r =>
        decide (r.activity.type = current.activity.type)).filter fun r =>
        match startOfCandidate r.activity with
        | none => false
        | some dt =>
          decide (cs - 14 * 24 * 3600 * 1000 ≤ dt ∧ dt ≤ cs - 7 * 24 * 3600 * 1000)).filter
        (fun r =>
        match safeNum current.activity.distance_m with
        | none => true
        | some c =>
          match safeNum r.activity.distance_m with
          | none => false
          | some d =>
            if d ≤ 0 then false
            else if c = 0 then false
            else decide (|d - c| / c ≤ 1 / 5)) = l4
    rw [hG] at hmem
    constructor
    · intro r hr
      obtain ⟨hmemf, hmax⟩ := head_insertionSortDesc_max l4 r hr
      obtain ⟨hhist, hpass⟩ := (hmem r).mp hmemf
      refine ⟨hhist, hpass, ?_⟩
      intro r2 hr2 hp2
      exact hmax r2 ((hmem r2).mpr ⟨hr2, hp2⟩)
    · intro ⟨r, hrh, hrp⟩
      have hr4 := (hmem r).mpr ⟨hrh, hrp⟩
      have hperm := List.perm_insertionSort (fun a b => dateKey b ≤ dateKey a) l4
      cases hs : l4.insertionSort fun a b => dateKey b ≤ dateKey a with
      | nil =>
        rw [hs] at hperm
        rw [hperm.symm.eq_nil] at hr4
        cases hr4
      | cons x xs => rfl

/-- One day in milliseconds. -/
def dayMs : ℤ := 24 * 3600 * 1000

/-- Current activity for the matcher witness: a run starting on day 20. -/
def curMatchRec : StoredRec :=
  ⟨⟨some 100, some "Run", none, some (some (20 * dayMs)), none, none, none, none, none, none⟩,
    ⟨none, none, none⟩⟩

/-- History record for the matcher witness: a run starting on day 12 (eight
days before the current start, inside the window). -/
def histMatchRec : StoredRec :=
  ⟨⟨some 3, some "Run", none, some (some (12 * dayMs)), none, none, none, none, none, none⟩,
    ⟨none, none, none⟩⟩

/-- Witness for the C4 theorem: a passing candidate eight days back yields a
match, and a current record with an unparseable start yields `none`. -/
theorem pickComparableLastWeek_spec_witness :
    (pickComparableLastWeek 0 curMatchRec [histMatchRec]).isSome ∧
    pickComparableLastWeek 0
      ⟨⟨some 1, none, none, some none, none, none, none, none, none, none⟩, ⟨none, none, none⟩⟩
      [] = none :=
  ⟨((pickComparableLastWeek_spec 0 curMatchRec [histMatchRec]).2 (20 * dayMs) (by decide)).2
      ⟨histMatchRec, List.mem_cons_self _ _, by decide⟩,
   (pickComparableLastWeek_spec 0
      ⟨⟨some 1, none, none, some none, none, none, none, none, none, none⟩, ⟨none, none, none⟩⟩
      []).1 (by decide)⟩
